import Mathlib

/-!
Verification development for `sort.py`, an asynchronous file sorter.

The script recursively scans a source directory, and for every regular file
found it derives a bucket name from the file's extension
(`file_path.suffix.lstrip('.').lower()`, with sentinel `no_extension`),
creates `<output>/<bucket>` (with parents, tolerating existing directories),
and copies the file's bytes to `<output>/<bucket>/<name>`, overwriting any
existing file.  Each per-file copy catches all exceptions, logging an error
that names the failing source path.  `read_folder` collects one task per
discovered file, awaits them all, and logs either the count of attempted
tasks or a "no files found" line; an exception during enumeration is caught,
logged, and makes `read_folder` return early.  `main` validates that the
source is an existing directory before any traversal.

The embedding below models the filesystem as an association list from paths
(lists of components) to byte contents, plus a list of existing directories.
Concurrency: `asyncio.gather` guarantees no ordering across files, so one
execution of a run is modelled by running the tasks to completion in some
order (`runTasks` on a schedule); statements sensitive to completion order
quantify over, or exhibit, schedules that are permutations of the created
task list.  Fallible I/O steps are driven by an oracle assigning failure
flags per source file.  Tasks created before an enumeration exception have
already been scheduled and run during the traversal's awaits; by process
shutdown each has either never run, been cancelled partway
(`asyncio.CancelledError` is a `BaseException`, so the `except Exception`
handler does not catch it and a cancelled task logs nothing), or run to
completion — captured by a `TaskFate` per created file.
-/

/-- A filesystem path, as a list of components. -/
abbrev FsPath : Type := List String

/-- File contents, as a list of bytes. -/
abbrev Content : Type := List Nat

/-! ### String semantics used by `copy_file`

`file_path.suffix` is `pathlib.PurePath.suffix`: with `i = name.rfind('.')`,
the result is `name[i:]` when `0 < i < len(name) - 1`, else `''`.
`str.lstrip('.')` removes every leading `'.'`.  `str.lower()` case-folds
(restricted here to the ASCII fold `Char.toLower`). -/

/-- Index of the last `'.'` in a character list (Python `name.rfind('.')`,
with `none` for "not found"). -/
def rfindDot : List Char → Option Nat
  | [] => none
  | c :: cs =>
    match rfindDot cs with
    | some j => some (j + 1)
    | none => if c = '.' then some 0 else none

/-- `pathlib.PurePath.suffix` on a file name. -/
def pySuffix (name : List Char) : List Char :=
  match rfindDot name with
  | some i => if 0 < i ∧ i < name.length - 1 then name.drop i else []
  | none => []

/-- Python `str.lstrip('.')`: drop all leading dots. -/
def lstripDot : List Char → List Char
  | [] => []
  | c :: cs => if c = '.' then lstripDot cs else c :: cs

/-- Python `str.lower()`, restricted to the ASCII fold. -/
def lowerChars (l : List Char) : List Char := l.map Char.toLower

/-- The sentinel bucket name used when a file has no extension. -/
def noExtChars : List Char := "no_extension".data

/-- `extension = file_path.suffix.lstrip('.').lower()`; if empty, the
sentinel `no_extension` (lines 51-53 of `sort.py`), on character lists. -/
def extKeyChars (name : List Char) : List Char :=
  let e := lowerChars (lstripDot (pySuffix name))
  if e = [] then noExtChars else e

/-- The extension bucket derived from a file name. -/
def extension_key (name : String) : String := ⟨extKeyChars name.data⟩

/-! ### Specification-side extension key (for the refinement claim)

Modelled from the spec's words: the ExtensionKey is "the substring after
the final `.`, case-folded" to lowercase; the sentinel `no_extension` is
used "when the name has no suffix or the suffix is empty after stripping
the leading dot" — i.e. when there is no dot, the final dot has an empty
stem before it (a leading-dot name), or nothing follows the final dot. -/

/-- Split a name at its final dot into (stem, extension text), `none` when
the name contains no dot. -/
def splitLastDot : List Char → Option (List Char × List Char)
  | [] => none
  | c :: cs =>
    match splitLastDot cs with
    | some (s, e) => some (c :: s, e)
    | none => if c = '.' then some ([], cs) else none

/-- The spec's ExtensionKey on character lists. -/
def specKeyChars (name : List Char) : List Char :=
  match splitLastDot name with
  | some (s, e) => if s = [] ∨ e = [] then noExtChars else lowerChars e
  | none => noExtChars

/-- The spec's ExtensionKey on strings. -/
def specKey (name : String) : String := ⟨specKeyChars name.data⟩

/-! ### Filesystem model -/

/-- A filesystem: regular files as an association list from path to
contents (first binding wins on lookup), plus the set of directories. -/
structure FS where
  files : List (FsPath × Content)
  dirs : List FsPath
deriving DecidableEq

/-- Look up the contents of the regular file at `p`. -/
def lookupFile : List (FsPath × Content) → FsPath → Option Content
  | [], _ => none
  | (q, c) :: rest, p => if q = p then some c else lookupFile rest p

/-- Contents of the file at `p` in `fs`, if it exists. -/
def fsRead (fs : FS) (p : FsPath) : Option Content := lookupFile fs.files p

/-- Overwrite-or-create semantics of opening a file with mode `'wb'` and
writing `c`: replace the first binding of `p` in place, else append. -/
def writeAssoc : List (FsPath × Content) → FsPath → Content → List (FsPath × Content)
  | [], p, c => [(p, c)]
  | (q, d) :: rest, p, c =>
    if q = p then (p, c) :: rest else (q, d) :: writeAssoc rest p c

/-- Write contents `c` at path `p`. -/
def fsWrite (fs : FS) (p : FsPath) (c : Content) : FS :=
  { fs with files := writeAssoc fs.files p c }

/-- The nonempty path-component prefixes of `d`. -/
def pathPfxs (d : FsPath) : List FsPath :=
  (List.range d.length).map (fun i => d.take (i + 1))

/-- `mkdir(exist_ok=True, parents=True)`: create `d` and every missing
ancestor; a directory that already exists is left alone. -/
def mkdirp (fs : FS) (d : FsPath) : FS :=
  { fs with dirs := fs.dirs ++ (pathPfxs d).filter (fun q => ¬ fs.dirs.contains q) }

/-- `AsyncPath.name`: the final path component. -/
def nameOf (p : FsPath) : String := p.getLast?.getD ""

/-- `destination_dir = output_folder / extension`. -/
def destDir (out : FsPath) (f : FsPath) : FsPath := out ++ [extension_key (nameOf f)]

/-- `destination_path = destination_dir / file_path.name`. -/
def destPath (out : FsPath) (f : FsPath) : FsPath := destDir out f ++ [nameOf f]

/-- `p` lies strictly below the directory `root`. -/
def isUnder (root : FsPath) (p : FsPath) : Bool :=
  root.isPrefixOf p && decide (root.length < p.length)

/-- The regular files `source_folder.glob('**/*')` + `is_file()` discovers:
every file path strictly below `src`, in filesystem enumeration order. -/
def discover (fs : FS) (src : FsPath) : List FsPath :=
  (fs.files.map Prod.fst).filter (isUnder src)

/-- `AsyncPath.is_dir`. -/
def isDir (fs : FS) (p : FsPath) : Bool := fs.dirs.contains p

/-! ### Failure injection and logging -/

/-- Per-source-file failure flags for the three fallible I/O steps of one
copy operation (directory creation, source read, destination write). -/
structure Oracle where
  mkdirFails : FsPath → Bool
  readFails : FsPath → Bool
  writeFails : FsPath → Bool

/-- The oracle under which every I/O step succeeds. -/
def okOracle : Oracle :=
  { mkdirFails := fun _ => false, readFails := fun _ => false, writeFails := fun _ => false }

/-- `o` makes some step of the copy of `f` raise. -/
def copyFails (o : Oracle) (f : FsPath) : Bool :=
  o.mkdirFails f || o.readFails f || o.writeFails f

/-- The log lines `sort.py` can emit, by shape. -/
inductive Log where
  /-- info: start of the sort run (`main`). -/
  | started (src out : FsPath)
  /-- info: one file copied, naming source and destination (`copy_file`). -/
  | copied (src dst : FsPath)
  /-- error: one file's copy failed, naming the source (`copy_file`). -/
  | copyError (src : FsPath)
  /-- error: enumeration of the source folder raised (`read_folder`). -/
  | readFolderError (src : FsPath)
  /-- info: aggregate count of processed tasks (`read_folder`). -/
  | processed (n : Nat)
  /-- info: no files found to copy (`read_folder`). -/
  | noFiles
  /-- error: the source folder does not exist (`main`). -/
  | sourceMissing (src : FsPath)
  /-- info: end of the sort run (`main`). -/
  | finished
deriving DecidableEq

/-- Whether a log line is emitted at error level. -/
def Log.isError : Log → Bool
  | copyError _ => true
  | readFolderError _ => true
  | sourceMissing _ => true
  | _ => false

/-- The source path a per-file log line names, `none` for run-level lines. -/
def Log.srcOf : Log → Option FsPath
  | copied s _ => some s
  | copyError s => some s
  | _ => none

/-! ### The translated program -/

/-- The body of `copy_file` up to the success log: derive the bucket, make
the destination directory, read the source, write the destination.  An
error carries the failing source path and the filesystem as mutated so far
(directory creation persists even when a later step raises). -/
def copy_file_body (o : Oracle) (fs : FS) (f out : FsPath) : Except (FsPath × FS) FS :=
  let ddir := destDir out f
  if o.mkdirFails f then .error (f, fs)
  else
    let fs1 := mkdirp fs ddir
    if o.readFails f then .error (f, fs1)
    else
      match fsRead fs1 f with
      | none => .error (f, fs1)
      | some content =>
        if o.writeFails f then .error (f, fs1)
        else .ok (fsWrite fs1 (destPath out f) content)

/-- `copy_file`: run the body under `try`; on success log the copied line,
on any exception catch it and log an error naming the source path. -/
def copy_file (o : Oracle) (fs : FS) (f out : FsPath) : FS × Log :=
  match copy_file_body o fs f out with
  | .ok fs' => (fs', .copied f (destPath out f))
  | .error (p, fs') => (fs', .copyError p)

/-- Run the created copy tasks to completion in the given order.
`asyncio.gather(*tasks)` guarantees no ordering across files, so an
admissible execution of a run is `runTasks` on any permutation of the
created task list; statements that depend on completion order quantify
over, or exhibit, such schedules. -/
def runTasks (o : Oracle) (out : FsPath) : FS → List FsPath → FS × List Log
  | fs, [] => (fs, [])
  | fs, f :: rest =>
    let r := copy_file o fs f out
    let rr := runTasks o out r.1 rest
    (rr.1, r.2 :: rr.2)

/-- How far one already-created copy task has got by process shutdown
when the enumeration raised after creating it: cancelled before any
effect, cancelled after creating its destination directory, cancelled
after its filesystem effects but before logging (`CancelledError` is not
caught by the `except Exception` handler, so a cancelled task logs
nothing), or run to completion during the traversal's awaits. -/
inductive TaskFate where
  | skipped
  | mkdirOnly
  | written
  | finished

/-- Outcome of enumerating the source folder: either the full list of
discovered files, or an exception raised during enumeration after copy
tasks were already created for the entries yielded so far, each of which
reaches some fate. -/
inductive Traversal where
  | ok (files : List FsPath)
  | fail (created : List FsPath) (fate : FsPath → TaskFate)

/-- The filesystem effect and log output of one already-created task that
reaches the given fate. -/
def runFate (o : Oracle) (out : FsPath) (fs : FS) (f : FsPath) : TaskFate → FS × List Log
  | .skipped => (fs, [])
  | .mkdirOnly => (mkdirp fs (destDir out f), [])
  | .written => ((copy_file o fs f out).1, [])
  | .finished => ((copy_file o fs f out).1, [(copy_file o fs f out).2])

/-- Effects of the tasks created before an enumeration exception, each
running to its fate. -/
def runCancelled (o : Oracle) (out : FsPath) (fate : FsPath → TaskFate) :
    FS → List FsPath → FS × List Log
  | fs, [] => (fs, [])
  | fs, f :: rest =>
    let r := runFate o out fs f (fate f)
    let rr := runCancelled o out fate r.1 rest
    (rr.1, r.2 ++ rr.2)

/-- `read_folder`: on an enumeration exception, the tasks already created
for the entries yielded before it have been scheduled and reach their
fates; the `except` block logs the error and returns early, so neither
the aggregate count nor the "no files found" line is logged.  Otherwise
gather all tasks and log the aggregate count, or log the "no files found"
line when no task was created. -/
def read_folder (o : Oracle) (fs : FS) (src : FsPath) (t : Traversal) (out : FsPath) :
    FS × List Log :=
  match t with
  | .fail created fate =>
    let r := runCancelled o out fate fs created
    (r.1, r.2 ++ [.readFolderError src])
  | .ok files =>
    if files = [] then (fs, [.noFiles])
    else
      let r := runTasks o out fs files
      (r.1, r.2 ++ [.processed files.length])

/-- `main` after argument parsing: abort with an error log when the source
is not an existing directory, else run `read_folder` between the start and
finish logs (Lean reserves the name `main`). -/
def mainFn (o : Oracle) (fs : FS) (t : Traversal) (src out : FsPath) : FS × List Log :=
  if isDir fs src then
    let r := read_folder o fs src t out
    (r.1, .started src out :: (r.2 ++ [.finished]))
  else
    (fs, [.sourceMissing src])

/-! ### Write-sequence view of a run (proof infrastructure) -/

/-- The sequence of (destination, contents) writes a run of `copy_file`
tasks performs when every I/O step succeeds, with contents as read in the
starting filesystem; a file absent from the filesystem contributes no
write (its copy fails at the read step). -/
def writesOf (out : FsPath) (fs : FS) (files : List FsPath) : List (FsPath × Content) :=
  files.filterMap (fun f => (fsRead fs f).map (fun c => (destPath out f, c)))

/-- The contents of the last write to `p` in a write sequence, if any. -/
def lastWrite : List (FsPath × Content) → FsPath → Option Content
  | [], _ => none
  | (q, c) :: ws, p =>
    match lastWrite ws p with
    | some d => some d
    | none => if q = p then some c else none

/-! ### Concrete instances used in closed-form checks -/

/-- A two-file source tree in which the distinct files `src/a/d.txt` and
`src/b/d.txt` both map to the destination `dist/txt/d.txt`. -/
def collideFS : FS :=
  ⟨[(["src", "a", "d.txt"], [1]), (["src", "b", "d.txt"], [2])],
   [["src"], ["src", "a"], ["src", "b"]]⟩

/-- A one-file source tree with `s/a.txt` holding the byte `3`. -/
def oneFileFS : FS := ⟨[(["s", "a.txt"], [3])], [["s"]]⟩

/-- A two-file source tree with `s/bad` and `s/ok.txt`. -/
def twoFileFS : FS := ⟨[(["s", "bad"], [9]), (["s", "ok.txt"], [7])], [["s"]]⟩

/-- An oracle under which reading the source `s/bad` raises and every
other step succeeds. -/
def badReadOracle : Oracle :=
  { mkdirFails := fun _ => false,
    readFails := fun p => decide (p = ["s", "bad"]),
    writeFails := fun _ => false }

/-! ### Lemmas: extension-key semantics -/

/-- Structural characterisation of `splitLastDot` and `rfindDot`: a name
either has no dot (both fail) or splits as `s ++ '.' :: e` around its last
dot, with `rfindDot` returning the index `s.length`. -/
theorem splitLastDot_spec (name : List Char) :
    (splitLastDot name = none ∧ rfindDot name = none ∧ '.' ∉ name) ∨
    (∃ s e, splitLastDot name = some (s, e) ∧ rfindDot name = some s.length ∧
      name = s ++ '.' :: e ∧ '.' ∉ e) := by
  induction name with
  | nil => exact .inl ⟨rfl, rfl, by simp⟩
  | cons c cs ih =>
    rcases ih with ⟨h1, h2, h3⟩ | ⟨s, e, h1, h2, h3, h4⟩
    · by_cases hc : c = '.'
      · subst hc
        exact .inr ⟨[], cs, by simp [splitLastDot, h1], by simp [rfindDot, h2], rfl, h3⟩
      · refine .inl ⟨by simp [splitLastDot, h1, hc], by simp [rfindDot, h2, hc], ?_⟩
        intro hmem
        rcases List.mem_cons.mp hmem with h | h
        · exact hc h.symm
        · exact h3 h
    · refine .inr ⟨c :: s, e, by simp [splitLastDot, h1], ?_, by simp [h3], h4⟩
      simp [rfindDot, h2]

/-- `str.lstrip('.')` is the identity on a dot-free string. -/
theorem lstripDot_of_not_mem (e : List Char) (h : '.' ∉ e) : lstripDot e = e := by
  cases e with
  | nil => rfl
  | cons c cs =>
    have hc : ¬ c = '.' := fun hc => h (by simp [hc])
    simp [lstripDot, hc]

/-- The code's extension key agrees with the spec's on every name. -/
theorem extKeyChars_eq_specKeyChars (name : List Char) :
    extKeyChars name = specKeyChars name := by
  rcases splitLastDot_spec name with ⟨h1, h2, _⟩ | ⟨s, e, h1, h2, h3, h4⟩
  · simp [extKeyChars, specKeyChars, pySuffix, h1, h2, lstripDot, lowerChars]
  · subst h3
    have hdrop : (s ++ '.' :: e).drop s.length = '.' :: e := List.drop_left s ('.' :: e)
    have hlen : (s ++ '.' :: e).length - 1 = s.length + e.length := by
      simp [List.length_append, Nat.add_sub_cancel]
    by_cases hs : s = []
    · subst hs
      simp only [List.nil_append, List.length_nil] at h1 h2
      simp [extKeyChars, specKeyChars, pySuffix, h1, h2, lstripDot, lowerChars]
    · by_cases he : e = []
      · subst he
        have hcond : ¬ (0 < s.length ∧ s.length < (s ++ ['.']).length - 1) := by
          rintro ⟨-, hlt⟩
          rw [show (s ++ ['.']) = s ++ '.' :: ([] : List Char) from rfl, hlen] at hlt
          exact absurd hlt (by simp)
        simp [extKeyChars, specKeyChars, pySuffix, h1, h2, hcond, lstripDot, lowerChars, hs]
      · have hcond : 0 < s.length ∧ s.length < (s ++ '.' :: e).length - 1 := by
          refine ⟨List.length_pos.mpr hs, ?_⟩
          rw [hlen]
          exact Nat.lt_add_of_pos_right (List.length_pos.mpr he)
        have hsuf : pySuffix (s ++ '.' :: e) = '.' :: e := by
          simp only [pySuffix, h2]
          rw [if_pos hcond]
          exact hdrop
        have hstrip : lstripDot ('.' :: e) = e := by
          simp [lstripDot, lstripDot_of_not_mem e h4]
        have hne : lowerChars e ≠ [] := fun hmap => he (by simpa [lowerChars] using hmap)
        simp [extKeyChars, specKeyChars, h1, hs, he, hsuf, hstrip, hne]

/-! ### Lemmas: filesystem primitives -/

/-- Reading after a write: the written path returns the new contents,
every other path is untouched. -/
theorem lookupFile_writeAssoc (p q : FsPath) (c : Content) :
    ∀ l, lookupFile (writeAssoc l p c) q = if p = q then some c else lookupFile l q
  | [] => by
    by_cases h : p = q <;> simp [writeAssoc, lookupFile, h]
  | (k, d) :: rest => by
    by_cases hk : k = p
    · subst hk
      by_cases hq : k = q
      · subst hq; simp [writeAssoc, lookupFile]
      · simp [writeAssoc, lookupFile, hq]
    · by_cases hq : k = q
      · subst hq
        have hpq : ¬ p = k := fun h => hk h.symm
        simp [writeAssoc, lookupFile, hk, hpq]
      · simp [writeAssoc, lookupFile, hk, hq, lookupFile_writeAssoc p q c rest]

/-- `fsRead` after `fsWrite`. -/
theorem fsRead_fsWrite (fs : FS) (p : FsPath) (c : Content) (q : FsPath) :
    fsRead (fsWrite fs p c) q = if p = q then some c else fsRead fs q :=
  lookupFile_writeAssoc p q c fs.files

/-- Creating directories never changes file contents. -/
theorem fsRead_mkdirp (fs : FS) (d p : FsPath) : fsRead (mkdirp fs d) p = fsRead fs p := rfl

/-- With every I/O step succeeding and the source present, `copy_file`
makes the destination directory and writes the source's bytes at the
destination path, logging the copied line. -/
theorem copy_file_ok_some (fs : FS) (f out : FsPath) (c : Content) (h : fsRead fs f = some c) :
    copy_file okOracle fs f out =
      (fsWrite (mkdirp fs (destDir out f)) (destPath out f) c,
       .copied f (destPath out f)) := by
  have h' : fsRead (mkdirp fs (destDir out f)) f = some c := h
  simp [copy_file, copy_file_body, okOracle, h']

/-- With every I/O step succeeding but the source absent, `copy_file`
makes the destination directory, then catches the failed open and logs
the error. -/
theorem copy_file_ok_none (fs : FS) (f out : FsPath) (h : fsRead fs f = none) :
    copy_file okOracle fs f out = (mkdirp fs (destDir out f), .copyError f) := by
  have h' : fsRead (mkdirp fs (destDir out f)) f = none := h
  simp [copy_file, copy_file_body, okOracle, h']

/-- Whatever happens inside one copy, its single log line names the
file's own source path. -/
theorem copy_file_srcOf (o : Oracle) (fs : FS) (f out : FsPath) :
    ((copy_file o fs f out).2).srcOf = some f := by
  unfold copy_file copy_file_body
  by_cases h1 : o.mkdirFails f = true
  · simp [h1, Log.srcOf]
  · by_cases h2 : o.readFails f = true
    · simp [h1, h2, Log.srcOf]
    · cases hr : fsRead (mkdirp fs (destDir out f)) f with
      | none => simp [h1, h2, hr, Log.srcOf]
      | some c => by_cases h3 : o.writeFails f = true <;> simp [h1, h2, h3, hr, Log.srcOf]

/-- A copy whose oracle makes some step raise logs the error line naming
the failing source path (and nothing escapes the `except` handler). -/
theorem copy_file_fail_log (o : Oracle) (fs : FS) (f out : FsPath)
    (h : copyFails o f = true) :
    (copy_file o fs f out).2 = .copyError f := by
  unfold copy_file copy_file_body
  by_cases h1 : o.mkdirFails f = true
  · simp [h1]
  · by_cases h2 : o.readFails f = true
    · simp [h1, h2]
    · have h3 : o.writeFails f = true := by
        simp [copyFails, h1, h2] at h
        exact h
      cases hr : fsRead (mkdirp fs (destDir out f)) f with
      | none => simp [h1, h2, hr]
      | some c => simp [h1, h2, h3, hr]

/-- One log line per created task, in creation order, each naming its own
source file — regardless of which copies fail. -/
theorem runTasks_srcOf (o : Oracle) (out : FsPath) :
    ∀ (files : List FsPath) (fs : FS),
      ((runTasks o out fs files).2).map Log.srcOf = files.map some := by
  intro files
  induction files with
  | nil => intro fs; rfl
  | cons f rest ih => intro fs; simp [runTasks, copy_file_srcOf, ih]

/-- A failing file's error line appears in the run's log. -/
theorem copyError_mem_runTasks (o : Oracle) (out : FsPath) :
    ∀ (files : List FsPath) (fs : FS) (f : FsPath), f ∈ files → copyFails o f = true →
      Log.copyError f ∈ (runTasks o out fs files).2 := by
  intro files
  induction files with
  | nil => simp
  | cons g rest ih =>
    intro fs f hf hfail
    rcases List.mem_cons.mp hf with h | h
    · subst h
      simp [runTasks, copy_file_fail_log o fs f out hfail]
    · simp only [runTasks]
      exact List.mem_cons_of_mem _ (ih _ f h hfail)

/-! ### Lemmas: runs as write sequences -/

/-- A write sequence touching only keys other than `p` records no last
write at `p`. -/
theorem lastWrite_eq_none (p : FsPath) :
    ∀ ws : List (FsPath × Content), (∀ qc ∈ ws, qc.1 ≠ p) → lastWrite ws p = none := by
  intro ws
  induction ws with
  | nil => intro _; rfl
  | cons qc ws ih =>
    obtain ⟨q, c⟩ := qc
    intro h
    have hq : q ≠ p := h (q, c) (by simp)
    have ht := ih (fun x hx => h x (by simp [hx]))
    simp [lastWrite, ht, hq]

/-- A recorded last write at `p` is an entry of the sequence. -/
theorem lastWrite_mem (p : FsPath) (c : Content) :
    ∀ ws : List (FsPath × Content), lastWrite ws p = some c → (p, c) ∈ ws := by
  intro ws
  induction ws with
  | nil => simp [lastWrite]
  | cons qd ws ih =>
    obtain ⟨q, d⟩ := qd
    intro h
    simp only [lastWrite] at h
    cases hl : lastWrite ws p with
    | some x =>
      rw [hl] at h
      exact List.mem_cons_of_mem _ (ih (hl.trans h))
    | none =>
      rw [hl] at h
      by_cases hq : q = p
      · simp only [hq, if_pos rfl] at h
        obtain rfl : d = c := Option.some.inj h
        exact hq ▸ List.mem_cons_self _ _
      · simp [hq] at h

/-- A key occurring in the sequence has a recorded last write. -/
theorem lastWrite_ne_none (p : FsPath) (c : Content) :
    ∀ ws : List (FsPath × Content), (p, c) ∈ ws → lastWrite ws p ≠ none := by
  intro ws
  induction ws with
  | nil => simp
  | cons qd ws ih =>
    obtain ⟨q, d⟩ := qd
    intro hmem
    rcases List.mem_cons.mp hmem with h | h
    · obtain ⟨rfl, rfl⟩ := Prod.mk.injEq .. ▸ h
      cases hl : lastWrite ws p with
      | some x => simp [lastWrite, hl]
      | none => simp [lastWrite, hl]
    · have := ih h
      cases hl : lastWrite ws p with
      | some x => simp [lastWrite, hl]
      | none => exact absurd hl this

/-- If every write to `p` in the sequence writes `c`, and some write to
`p` occurs, the last write at `p` is `c`. -/
theorem lastWrite_of_uniform (ws : List (FsPath × Content)) (p : FsPath) (c : Content)
    (hmem : (p, c) ∈ ws) (huni : ∀ qd ∈ ws, qd.1 = p → qd.2 = c) :
    lastWrite ws p = some c := by
  cases hl : lastWrite ws p with
  | none => exact absurd hl (lastWrite_ne_none p c ws hmem)
  | some d =>
    have hd : (p, d) ∈ ws := lastWrite_mem p d ws hl
    have : d = c := huni (p, d) hd rfl
    rw [this]

/-- Write sequences depend only on the reads of the listed files. -/
theorem writesOf_congr (out : FsPath) (fs fs' : FS) :
    ∀ files : List FsPath, (∀ g ∈ files, fsRead fs' g = fsRead fs g) →
      writesOf out fs' files = writesOf out fs files := by
  intro files
  induction files with
  | nil => intro _; rfl
  | cons f rest ih =>
    intro h
    have hf := h f (by simp)
    have ht := ih (fun g hg => h g (by simp [hg]))
    simp only [writesOf, List.filterMap_cons] at ht ⊢
    rw [hf, ht]

/-- Membership in a write sequence, characterised. -/
theorem mem_writesOf (out : FsPath) (fs : FS) (files : List FsPath) (qc : FsPath × Content) :
    qc ∈ writesOf out fs files ↔
      ∃ g ∈ files, destPath out g = qc.1 ∧ fsRead fs g = some qc.2 := by
  simp only [writesOf, List.mem_filterMap, Option.map_eq_some']
  constructor
  · rintro ⟨g, hg, c, hc, hqc⟩
    subst hqc
    exact ⟨g, hg, rfl, hc⟩
  · rintro ⟨g, hg, h1, h2⟩
    exact ⟨g, hg, qc.2, h2, by rw [h1]⟩

/-- Run characterisation: with every I/O step succeeding and no
destination path colliding with a listed source path, reading any path
after the run returns the last write to it from the run's write sequence,
or its original contents if the run never writes it. -/
theorem runTasks_fsRead (out : FsPath) :
    ∀ (files : List FsPath) (fs : FS),
      (∀ f ∈ files, ∀ g ∈ files, destPath out g ≠ f) →
      ∀ p, fsRead (runTasks okOracle out fs files).1 p =
        (lastWrite (writesOf out fs files) p).elim (fsRead fs p) some := by
  intro files
  induction files with
  | nil => intro fs _ p; simp [runTasks, writesOf, lastWrite, Option.elim]
  | cons f rest ih =>
    intro fs H p
    have Hrest : ∀ a ∈ rest, ∀ g ∈ rest, destPath out g ≠ a := fun a ha g hg =>
      H a (List.mem_cons_of_mem f ha) g (List.mem_cons_of_mem f hg)
    cases hc : fsRead fs f with
    | some c =>
      have hcf := copy_file_ok_some fs f out c hc
      have hrun : (runTasks okOracle out fs (f :: rest)).1 =
          (runTasks okOracle out (fsWrite (mkdirp fs (destDir out f)) (destPath out f) c)
            rest).1 := by
        simp [runTasks, hcf]
      have hreads : ∀ g ∈ rest,
          fsRead (fsWrite (mkdirp fs (destDir out f)) (destPath out f) c) g = fsRead fs g := by
        intro g hg
        have hne : destPath out f ≠ g :=
          H g (List.mem_cons_of_mem f hg) f (List.mem_cons_self f rest)
        rw [fsRead_fsWrite, if_neg hne, fsRead_mkdirp]
      have hws := writesOf_congr out fs _ rest hreads
      have hwcons : writesOf out fs (f :: rest) = (destPath out f, c) :: writesOf out fs rest := by
        simp [writesOf, List.filterMap_cons, hc]
      rw [hrun, ih _ Hrest p, hws, hwcons]
      cases hl : lastWrite (writesOf out fs rest) p with
      | some d => simp [lastWrite, hl, Option.elim]
      | none =>
        rw [fsRead_fsWrite, fsRead_mkdirp]
        by_cases hp : destPath out f = p
        · simp [lastWrite, hl, hp, Option.elim]
        · simp [lastWrite, hl, hp, Option.elim]
    | none =>
      have hcf := copy_file_ok_none fs f out hc
      have hrun : (runTasks okOracle out fs (f :: rest)).1 =
          (runTasks okOracle out (mkdirp fs (destDir out f)) rest).1 := by
        simp [runTasks, hcf]
      have hreads : ∀ g ∈ rest, fsRead (mkdirp fs (destDir out f)) g = fsRead fs g :=
        fun g _ => fsRead_mkdirp fs (destDir out f) g
      have hws := writesOf_congr out fs _ rest hreads
      have hwcons : writesOf out fs (f :: rest) = writesOf out fs rest := by
        simp [writesOf, List.filterMap_cons, hc]
      rw [hrun, ih _ Hrest p, hws, hwcons, fsRead_mkdirp]

/-! ### Lemmas: traversal sees the same source tree after a run -/

/-- Writing at a path outside the source tree does not change which keys
below the source the key list holds. -/
theorem keysFilter_writeAssoc (src p : FsPath) (c : Content) (hp : isUnder src p = false) :
    ∀ l : List (FsPath × Content),
      ((writeAssoc l p c).map Prod.fst).filter (isUnder src) =
        (l.map Prod.fst).filter (isUnder src)
  | [] => by simp [writeAssoc, hp]
  | (q, d) :: rest => by
    by_cases hq : q = p
    · subst hq
      simp [writeAssoc]
    · simp only [writeAssoc, if_neg hq, List.map_cons, List.filter_cons]
      rw [keysFilter_writeAssoc src p c hp rest]

/-- Exhaustive outcomes of one `copy_file` under an arbitrary oracle: a
failure before directory creation, a failure after it, or a successful
copy writing the source's bytes at the destination. -/
theorem copy_file_cases (o : Oracle) (fs : FS) (f out : FsPath) :
    copy_file o fs f out = (fs, .copyError f) ∨
    copy_file o fs f out = (mkdirp fs (destDir out f), .copyError f) ∨
    ∃ c, fsRead fs f = some c ∧
      copy_file o fs f out = (fsWrite (mkdirp fs (destDir out f)) (destPath out f) c,
        .copied f (destPath out f)) := by
  unfold copy_file copy_file_body
  by_cases h1 : o.mkdirFails f = true
  · left; simp [h1]
  · by_cases h2 : o.readFails f = true
    · right; left; simp [h1, h2]
    · cases hr : fsRead (mkdirp fs (destDir out f)) f with
      | none => right; left; simp [h1, h2, hr]
      | some c =>
        by_cases h3 : o.writeFails f = true
        · right; left; simp [h1, h2, h3, hr]
        · right; right; exact ⟨c, hr, by simp [h1, h2, h3, hr]⟩

/-- The filesystem after one `copy_file` holds the same file list, or that
list with one write at the file's destination path applied. -/
theorem copy_file_files (o : Oracle) (fs : FS) (f out : FsPath) :
    ((copy_file o fs f out).1).files = fs.files ∨
    ∃ c, ((copy_file o fs f out).1).files = writeAssoc fs.files (destPath out f) c := by
  rcases copy_file_cases o fs f out with h | h | ⟨c, -, h⟩
  · left; rw [h]
  · left; rw [h]; rfl
  · right; exact ⟨c, by rw [h]; rfl⟩

/-- One copy whose destination is outside the source tree leaves the
discovered file set unchanged. -/
theorem discover_copy_file (o : Oracle) (fs : FS) (f out src : FsPath)
    (h : isUnder src (destPath out f) = false) :
    discover (copy_file o fs f out).1 src = discover fs src := by
  rcases copy_file_files o fs f out with hf | ⟨c, hf⟩
  · simp [discover, hf]
  · simp only [discover, hf]
    exact keysFilter_writeAssoc src (destPath out f) c h fs.files

/-- A run whose destinations all lie outside the source tree leaves the
discovered file set unchanged. -/
theorem discover_runTasks (o : Oracle) (out src : FsPath) :
    ∀ (files : List FsPath) (fs : FS),
      (∀ g ∈ files, isUnder src (destPath out g) = false) →
      discover (runTasks o out fs files).1 src = discover fs src := by
  intro files
  induction files with
  | nil => intro fs _; rfl
  | cons f rest ih =>
    intro fs h
    have h1 := h f (by simp)
    have hrest : ∀ g ∈ rest, isUnder src (destPath out g) = false :=
      fun g hg => h g (by simp [hg])
    have hstep : (runTasks o out fs (f :: rest)).1 =
        (runTasks o out (copy_file o fs f out).1 rest).1 := by
      simp [runTasks]
    rw [hstep, ih _ hrest, discover_copy_file o fs f out src h1]

/-- Sources outside the write set keep their contents across a run. -/
theorem runTasks_fsRead_source (out : FsPath) (files : List FsPath) (fs : FS)
    (H : ∀ f ∈ files, ∀ g ∈ files, destPath out g ≠ f) (p : FsPath)
    (hp : ∀ g ∈ files, destPath out g ≠ p) :
    fsRead (runTasks okOracle out fs files).1 p = fsRead fs p := by
  rw [runTasks_fsRead out files fs H p]
  have hnone : lastWrite (writesOf out fs files) p = none := by
    refine lastWrite_eq_none p _ (fun qc hqc => ?_)
    obtain ⟨g, hg, hdest, -⟩ := (mem_writesOf out fs files qc).mp hqc
    rw [← hdest]
    exact hp g hg
  rw [hnone]
  rfl

/-! ### Lemmas: tasks already created when enumeration fails -/

/-- Reading a path other than the copy's destination is unchanged by one
`copy_file`, whatever its outcome. -/
theorem copy_file_fsRead_other (o : Oracle) (fs : FS) (f out p : FsPath)
    (h : destPath out f ≠ p) :
    fsRead (copy_file o fs f out).1 p = fsRead fs p := by
  rcases copy_file_files o fs f out with hf | ⟨c, hf⟩
  · show lookupFile ((copy_file o fs f out).1).files p = lookupFile fs.files p
    rw [hf]
  · show lookupFile ((copy_file o fs f out).1).files p = lookupFile fs.files p
    rw [hf, lookupFile_writeAssoc, if_neg h]

/-- The log of one task's fate: nothing (cancelled before logging), or
exactly the task's own `copy_file` line. -/
theorem runFate_logs (o : Oracle) (out : FsPath) (fs : FS) (f : FsPath) (tf : TaskFate) :
    (runFate o out fs f tf).2 = [] ∨
    (runFate o out fs f tf).2 = [(copy_file o fs f out).2] := by
  cases tf <;> simp [runFate]

/-- Reading a path other than the task's destination is unchanged by one
task's fate. -/
theorem runFate_fsRead_other (o : Oracle) (out : FsPath) (fs : FS) (f p : FsPath)
    (tf : TaskFate) (h : destPath out f ≠ p) :
    fsRead (runFate o out fs f tf).1 p = fsRead fs p := by
  cases tf with
  | skipped => rfl
  | mkdirOnly => rfl
  | written => exact copy_file_fsRead_other o fs f out p h
  | finished => exact copy_file_fsRead_other o fs f out p h

/-- Every log line the already-created tasks emit is a per-file line
naming one of the files yielded before the failure. -/
theorem runCancelled_srcOf (o : Oracle) (out : FsPath) (fate : FsPath → TaskFate) :
    ∀ (created : List FsPath) (fs : FS),
      ∀ l ∈ (runCancelled o out fate fs created).2,
        ∃ q, l.srcOf = some q ∧ q ∈ created := by
  intro created
  induction created with
  | nil => intro fs l hl; simp [runCancelled] at hl
  | cons f rest ih =>
    intro fs l hl
    simp only [runCancelled] at hl
    rcases List.mem_append.mp hl with h | h
    · rcases runFate_logs o out fs f (fate f) with he | he
      · rw [he] at h
        simp at h
      · rw [he] at h
        have hl2 : l = (copy_file o fs f out).2 := by simpa using h
        exact ⟨f, hl2 ▸ copy_file_srcOf o fs f out, by simp⟩
    · obtain ⟨q, hq, hqm⟩ := ih _ l h
      exact ⟨q, hq, List.mem_cons_of_mem f hqm⟩

/-- Paths that are no created task's destination read unchanged after the
already-created tasks reach their fates. -/
theorem runCancelled_fsRead_other (o : Oracle) (out : FsPath) (fate : FsPath → TaskFate) :
    ∀ (created : List FsPath) (fs : FS) (p : FsPath),
      (∀ g ∈ created, destPath out g ≠ p) →
      fsRead (runCancelled o out fate fs created).1 p = fsRead fs p := by
  intro created
  induction created with
  | nil => intro fs p _; rfl
  | cons f rest ih =>
    intro fs p h
    have hstep : (runCancelled o out fate fs (f :: rest)).1 =
        (runCancelled o out fate (runFate o out fs f (fate f)).1 rest).1 := by
      simp [runCancelled]
    rw [hstep, ih _ p (fun g hg => h g (List.mem_cons_of_mem f hg)),
      runFate_fsRead_other o out fs f p (fate f) (h f (List.mem_cons_self f rest))]

/-! ### Claims -/

/-- Claim C2: for every filename the derived ExtensionKey agrees with the
spec's description — the lowercased text after the final dot, with the
sentinel `no_extension` exactly when the name has no (pathlib) suffix; in
particular `Photo.JPG` maps to `jpg` and `README` to `no_extension`. -/
theorem c2_extension_key_refines_spec :
    (∀ name : String, extension_key name = specKey name) ∧
    extension_key "Photo.JPG" = "jpg" ∧
    extension_key "README" = "no_extension" := by
  refine ⟨fun name => ?_, by decide, by decide⟩
  exact congrArg String.mk (extKeyChars_eq_specKeyChars name.data)

/-- Claim C10: a name with a single leading dot and no other dot, such as
`.gitignore`, is classified under `no_extension`, not under a bucket named
after the text following the leading dot. -/
theorem c10_leading_dot_is_no_extension :
    extension_key ".gitignore" = "no_extension" ∧
    extension_key ".gitignore" ≠ "gitignore" := by decide

/-- Claim C9: the destination of a file is deterministic and stateless —
it depends only on the file's name and the output root, so files with
equal names and equal output roots get equal destination paths. -/
theorem c9_destination_deterministic (out p q : FsPath) (h : nameOf p = nameOf q) :
    destPath out p = destPath out q := by
  simp [destPath, destDir, h]

/-- Claim C9 witness: two files in different subdirectories sharing the
name `x.txt` map to the same destination under the same output root. -/
theorem c9_destination_deterministic_witness :
    destPath ["dist"] ["src", "a", "x.txt"] = destPath ["dist"] ["src", "b", "x.txt"] :=
  c9_destination_deterministic ["dist"] ["src", "a", "x.txt"] ["src", "b", "x.txt"] (by decide)

/-- Claim C3: when the source root is not an existing directory, `main`
logs the error and returns before any traversal — the result does not
depend on the traversal outcome, the filesystem is unchanged (no output
directory or file is produced), and the only log line is the error. -/
theorem c3_missing_source_aborts (o : Oracle) (fs : FS) (t : Traversal) (src out : FsPath)
    (h : isDir fs src = false) :
    mainFn o fs t src out = (fs, [.sourceMissing src]) := by
  simp [mainFn, h]

/-- Claim C3 witness: a run against a missing source directory on the
empty filesystem returns it unchanged with the single error log. -/
theorem c3_missing_source_aborts_witness :
    mainFn okOracle ⟨[], []⟩ (.ok [["x"]]) ["nope"] ["dist"] =
      (⟨[], []⟩, [.sourceMissing ["nope"]]) :=
  c3_missing_source_aborts okOracle ⟨[], []⟩ (.ok [["x"]]) ["nope"] ["dist"] (by decide)

/-- Claim C7: when traversal completes and discovers no regular file,
`read_folder` logs the "no files found" line and returns the filesystem
unchanged — in particular the output root directory is not created and no
write to the output tree occurs. -/
theorem c7_empty_source_creates_nothing (o : Oracle) (fs : FS) (src out : FsPath)
    (h : discover fs src = []) :
    read_folder o fs src (.ok (discover fs src)) out = (fs, [.noFiles]) := by
  rw [h]
  simp [read_folder]

/-- Claim C7 witness: on a source directory with no files, the run leaves
the filesystem untouched and logs only the "no files found" line. -/
theorem c7_empty_source_creates_nothing_witness :
    read_folder okOracle ⟨[], [["s"]]⟩ ["s"] (.ok (discover ⟨[], [["s"]]⟩ ["s"])) ["d"] =
      (⟨[], [["s"]]⟩, [.noFiles]) :=
  c7_empty_source_creates_nothing okOracle ⟨[], [["s"]]⟩ ["s"] ["d"] (by decide)

/-- Claim C8: on a successful traversal all copy tasks are created before
any is awaited and `read_folder` gathers them all: it emits exactly one
per-file log line per discovered file, in creation order and regardless of
individual outcomes, followed by the aggregate count of tasks attempted,
`files.length` — not of tasks that succeeded. -/
theorem c8_gather_counts_attempted (o : Oracle) (fs : FS) (src out : FsPath)
    (files : List FsPath) (h : files ≠ []) :
    read_folder o fs src (.ok files) out =
      ((runTasks o out fs files).1,
       (runTasks o out fs files).2 ++ [.processed files.length]) ∧
    ((runTasks o out fs files).2).map Log.srcOf = files.map some := by
  refine ⟨?_, runTasks_srcOf o out files fs⟩
  simp [read_folder, h]

/-- Claim C8 witness: a run over two files, one of which fails at the
read step, still logs one line per file and reports the count 2. -/
theorem c8_gather_counts_attempted_witness :
    read_folder badReadOracle twoFileFS ["s"] (.ok [["s", "bad"], ["s", "ok.txt"]]) ["d"] =
      ((runTasks badReadOracle ["d"] twoFileFS [["s", "bad"], ["s", "ok.txt"]]).1,
       (runTasks badReadOracle ["d"] twoFileFS [["s", "bad"], ["s", "ok.txt"]]).2 ++
         [.processed ([["s", "bad"], ["s", "ok.txt"]] : List FsPath).length]) ∧
    ((runTasks badReadOracle ["d"] twoFileFS [["s", "bad"], ["s", "ok.txt"]]).2).map Log.srcOf =
      ([["s", "bad"], ["s", "ok.txt"]] : List FsPath).map some :=
  c8_gather_counts_attempted badReadOracle twoFileFS ["s"] ["d"]
    [["s", "bad"], ["s", "ok.txt"]] (by decide)

/-- Claim C4: an exception in any step of one file's copy is caught inside
that copy: the run's log contains the error line naming the failing source
path, yet every file in the task list — siblings included — still gets
exactly its own per-file log line, and `read_folder` still terminates
normally with the aggregate count (nothing propagates as a process-level
failure). -/
theorem c4_failure_isolated_to_file (o : Oracle) (fs : FS) (src out f : FsPath)
    (files : List FsPath) (hf : f ∈ files) (hfail : copyFails o f = true) :
    Log.copyError f ∈ (runTasks o out fs files).2 ∧
    ((runTasks o out fs files).2).map Log.srcOf = files.map some ∧
    read_folder o fs src (.ok files) out =
      ((runTasks o out fs files).1,
       (runTasks o out fs files).2 ++ [.processed files.length]) := by
  refine ⟨copyError_mem_runTasks o out files fs f hf hfail,
    runTasks_srcOf o out files fs, ?_⟩
  simp [read_folder, List.ne_nil_of_mem hf]

/-- Claim C4 witness: with the read of `s/bad` raising, the run logs the
error for `s/bad`, still attempts `s/ok.txt`, and completes normally. -/
theorem c4_failure_isolated_to_file_witness :
    Log.copyError ["s", "bad"] ∈
      (runTasks badReadOracle ["d"] twoFileFS [["s", "bad"], ["s", "ok.txt"]]).2 ∧
    ((runTasks badReadOracle ["d"] twoFileFS [["s", "bad"], ["s", "ok.txt"]]).2).map Log.srcOf =
      ([["s", "bad"], ["s", "ok.txt"]] : List FsPath).map some ∧
    read_folder badReadOracle twoFileFS ["s"] (.ok [["s", "bad"], ["s", "ok.txt"]]) ["d"] =
      ((runTasks badReadOracle ["d"] twoFileFS [["s", "bad"], ["s", "ok.txt"]]).1,
       (runTasks badReadOracle ["d"] twoFileFS [["s", "bad"], ["s", "ok.txt"]]).2 ++
         [.processed ([["s", "bad"], ["s", "ok.txt"]] : List FsPath).length]) :=
  c4_failure_isolated_to_file badReadOracle twoFileFS ["s"] ["d"] ["s", "bad"]
    [["s", "bad"], ["s", "ok.txt"]] (by decide) (by decide)

/-- Claim C1 counterexample: in `collideFS` the file `src/a/d.txt` (bytes
`[1]`) is discovered and its copy task completes successfully — its copied
log line is emitted — yet after the run the file at its destination
`dist/txt/d.txt` does not hold its bytes: the sibling `src/b/d.txt` (bytes
`[2]`) was copied to the same destination later, so the claim's
byte-for-byte condition fails as stated. -/
theorem c1_copied_content_counterexample :
    (["src", "a", "d.txt"] : FsPath) ∈ discover collideFS ["src"] ∧
    fsRead collideFS ["src", "a", "d.txt"] = some [1] ∧
    Log.copied ["src", "a", "d.txt"] (destPath ["dist"] ["src", "a", "d.txt"]) ∈
      (read_folder okOracle collideFS ["src"]
        (.ok (discover collideFS ["src"])) ["dist"]).2 ∧
    fsRead (read_folder okOracle collideFS ["src"]
        (.ok (discover collideFS ["src"])) ["dist"]).1
      (destPath ["dist"] ["src", "a", "d.txt"]) = some [2] ∧
    ¬ fsRead (read_folder okOracle collideFS ["src"]
        (.ok (discover collideFS ["src"])) ["dist"]).1
      (destPath ["dist"] ["src", "a", "d.txt"]) = some [1] := by decide

/-- Claim C1 as amended: for every regular file discovered under the
source root, after a run in which every I/O step succeeds and no
destination collides with a source path, a file with the same name exists
at `<output>/<ext>/<name>`; its content is byte-for-byte identical to the
file's provided no other discovered file maps to the same destination
path (without that proviso the destination holds the last writer's
bytes, as the counterexample shows). -/
theorem c1_copy_lands_at_destination (fs : FS) (src out f : FsPath) (c : Content)
    (H : ∀ a ∈ discover fs src, ∀ g ∈ discover fs src, destPath out g ≠ a)
    (hf : f ∈ discover fs src)
    (huniq : ∀ g ∈ discover fs src, destPath out g = destPath out f → g = f)
    (hc : fsRead fs f = some c) :
    nameOf (destPath out f) = nameOf f ∧
    fsRead (read_folder okOracle fs src (.ok (discover fs src)) out).1 (destPath out f) =
      some c := by
  have hnil : discover fs src ≠ [] := List.ne_nil_of_mem hf
  have hproj : (read_folder okOracle fs src (.ok (discover fs src)) out).1 =
      (runTasks okOracle out fs (discover fs src)).1 := by
    simp [read_folder, hnil]
  constructor
  · simp [destPath, nameOf]
  · rw [hproj, runTasks_fsRead out (discover fs src) fs H (destPath out f)]
    have hmem : (destPath out f, c) ∈ writesOf out fs (discover fs src) :=
      (mem_writesOf out fs (discover fs src) (destPath out f, c)).mpr ⟨f, hf, rfl, hc⟩
    have huni : ∀ qd ∈ writesOf out fs (discover fs src),
        qd.1 = destPath out f → qd.2 = c := by
      intro qd hqd hkey
      obtain ⟨g, hg, hdest, hcg⟩ := (mem_writesOf out fs (discover fs src) qd).mp hqd
      have hgf : g = f := huniq g hg (by rw [hdest, hkey])
      subst hgf
      rw [hc] at hcg
      exact (Option.some.inj hcg).symm
    rw [lastWrite_of_uniform _ _ _ hmem huni]
    rfl

/-- Claim C1 witness: the single file `s/a.txt` with bytes `[3]` lands at
`d/txt/a.txt` with the same name and identical bytes. -/
theorem c1_copy_lands_at_destination_witness :
    nameOf (destPath ["d"] ["s", "a.txt"]) = nameOf ["s", "a.txt"] ∧
    fsRead (read_folder okOracle oneFileFS ["s"] (.ok (discover oneFileFS ["s"])) ["d"]).1
      (destPath ["d"] ["s", "a.txt"]) = some [3] :=
  c1_copy_lands_at_destination oneFileFS ["s"] ["d"] ["s", "a.txt"] [3]
    (by decide) (by decide) (by decide) (by decide)

/-- Claim C5 counterexample: enumeration fails after yielding `s/a.txt`,
whose already-created task runs to completion during the traversal's
awaits — the run does not degrade to "nothing to copy" and does not
behave like a zero-files run: the file is copied into the output tree,
its copied line is logged, the filesystem changes, and the "no files
found" line that a genuine zero-files run would log is absent. -/
theorem c5_pre_failure_copy_counterexample :
    fsRead (read_folder okOracle oneFileFS ["s"]
        (.fail [["s", "a.txt"]] (fun _ => .finished)) ["d"]).1 ["d", "txt", "a.txt"] =
      some [3] ∧
    Log.copied ["s", "a.txt"] ["d", "txt", "a.txt"] ∈
      (read_folder okOracle oneFileFS ["s"]
        (.fail [["s", "a.txt"]] (fun _ => .finished)) ["d"]).2 ∧
    Log.noFiles ∉
      (read_folder okOracle oneFileFS ["s"]
        (.fail [["s", "a.txt"]] (fun _ => .finished)) ["d"]).2 ∧
    ¬ (read_folder okOracle oneFileFS ["s"]
        (.fail [["s", "a.txt"]] (fun _ => .finished)) ["d"]).1 = oneFileFS := by decide

/-- Claim C5 as amended: if enumeration of the source root fails
mid-traversal, the failure is logged as an error and no further entries
are processed — every per-file log line names a file yielded before the
failure, and every path outside the created tasks' destinations reads
unchanged — but copy tasks already created may still complete their
copies and logs; no aggregate count and no "no files found" line is
reported, and the failure is not escalated: the enclosing run completes
normally through the finish log. -/
theorem c5_traversal_failure_not_escalated (o : Oracle) (fs : FS) (src out : FsPath)
    (created : List FsPath) (fate : FsPath → TaskFate) (h : isDir fs src = true) :
    Log.readFolderError src ∈ (read_folder o fs src (.fail created fate) out).2 ∧
    (Log.readFolderError src).isError = true ∧
    (∀ l ∈ (read_folder o fs src (.fail created fate) out).2,
      ∀ q, l.srcOf = some q → q ∈ created) ∧
    (∀ n, Log.processed n ∉ (read_folder o fs src (.fail created fate) out).2) ∧
    Log.noFiles ∉ (read_folder o fs src (.fail created fate) out).2 ∧
    (∀ p, (∀ g ∈ created, destPath out g ≠ p) →
      fsRead (read_folder o fs src (.fail created fate) out).1 p = fsRead fs p) ∧
    mainFn o fs (.fail created fate) src out =
      ((read_folder o fs src (.fail created fate) out).1,
        .started src out :: ((read_folder o fs src (.fail created fate) out).2 ++
          [.finished])) := by
  have hlogs : (read_folder o fs src (.fail created fate) out).2 =
      (runCancelled o out fate fs created).2 ++ [.readFolderError src] := by
    simp [read_folder]
  have hfs : (read_folder o fs src (.fail created fate) out).1 =
      (runCancelled o out fate fs created).1 := by
    simp [read_folder]
  refine ⟨?_, rfl, ?_, ?_, ?_, ?_, ?_⟩
  · rw [hlogs]
    exact List.mem_append_right _ (by simp)
  · intro l hl q hq
    rw [hlogs] at hl
    rcases List.mem_append.mp hl with h1 | h1
    · obtain ⟨q', hq', hqm⟩ := runCancelled_srcOf o out fate created fs l h1
      rw [hq'] at hq
      exact (Option.some.inj hq) ▸ hqm
    · have hle : l = .readFolderError src := by simpa using h1
      rw [hle] at hq
      simp [Log.srcOf] at hq
  · intro n hn
    rw [hlogs] at hn
    rcases List.mem_append.mp hn with h1 | h1
    · obtain ⟨q, hq, -⟩ := runCancelled_srcOf o out fate created fs _ h1
      simp [Log.srcOf] at hq
    · simp at h1
  · intro hn
    rw [hlogs] at hn
    rcases List.mem_append.mp hn with h1 | h1
    · obtain ⟨q, hq, -⟩ := runCancelled_srcOf o out fate created fs _ h1
      simp [Log.srcOf] at hq
    · simp at h1
  · intro p hp
    rw [hfs]
    exact runCancelled_fsRead_other o out fate created fs p hp
  · simp [mainFn, h]

/-- Claim C5 witness: enumeration of the existing directory `s` fails
after yielding `s/a.txt` (whose task completes); the error is logged and
the enclosing run completes normally. -/
theorem c5_traversal_failure_not_escalated_witness :
    Log.readFolderError ["s"] ∈
      (read_folder okOracle oneFileFS ["s"]
        (.fail [["s", "a.txt"]] (fun _ => .finished)) ["d"]).2 ∧
    mainFn okOracle oneFileFS (.fail [["s", "a.txt"]] (fun _ => .finished)) ["s"] ["d"] =
      ((read_folder okOracle oneFileFS ["s"]
          (.fail [["s", "a.txt"]] (fun _ => .finished)) ["d"]).1,
        .started ["s"] ["d"] ::
          ((read_folder okOracle oneFileFS ["s"]
            (.fail [["s", "a.txt"]] (fun _ => .finished)) ["d"]).2 ++ [.finished])) :=
  ⟨(c5_traversal_failure_not_escalated okOracle oneFileFS ["s"] ["d"] [["s", "a.txt"]]
      (fun _ => .finished) (by decide)).1,
   (c5_traversal_failure_not_escalated okOracle oneFileFS ["s"] ["d"] [["s", "a.txt"]]
      (fun _ => .finished) (by decide)).2.2.2.2.2.2⟩

/-- Claim C6 counterexample: with `collideFS` the source tree is unchanged
after the first run (same discovered files, same bytes), yet a second run
whose two tasks — racing to the shared destination `dist/txt/d.txt` —
complete in the opposite order is an admissible execution (`gather` gives
no cross-file ordering), and it leaves `dist/txt/d.txt` holding `[1]`
where the first run left `[2]`: the output trees of the two runs differ
byte-for-byte at the shared destination. -/
theorem c6_racy_rerun_counterexample :
    List.Perm [(["src", "b", "d.txt"] : FsPath), ["src", "a", "d.txt"]]
      (discover (read_folder okOracle collideFS ["src"]
        (.ok (discover collideFS ["src"])) ["dist"]).1 ["src"]) ∧
    discover (read_folder okOracle collideFS ["src"]
        (.ok (discover collideFS ["src"])) ["dist"]).1 ["src"] =
      discover collideFS ["src"] ∧
    fsRead (read_folder okOracle collideFS ["src"]
        (.ok (discover collideFS ["src"])) ["dist"]).1 ["src", "a", "d.txt"] =
      fsRead collideFS ["src", "a", "d.txt"] ∧
    fsRead (read_folder okOracle collideFS ["src"]
        (.ok (discover collideFS ["src"])) ["dist"]).1 ["src", "b", "d.txt"] =
      fsRead collideFS ["src", "b", "d.txt"] ∧
    fsRead (read_folder okOracle collideFS ["src"]
        (.ok (discover collideFS ["src"])) ["dist"]).1 ["dist", "txt", "d.txt"] =
      some [2] ∧
    fsRead (runTasks okOracle ["dist"]
        (read_folder okOracle collideFS ["src"]
          (.ok (discover collideFS ["src"])) ["dist"]).1
        [["src", "b", "d.txt"], ["src", "a", "d.txt"]]).1 ["dist", "txt", "d.txt"] =
      some [1] ∧
    ¬ (some [1] : Option Content) = some [2] := by decide

/-- Claim C6 as amended: running the sort twice on the same source/output
pair with the source tree unchanged between runs (no destination inside
the source tree) leaves the output tree byte-identical — provided no two
discovered files share a destination path.  The runs' schedules may be
any completion orders (permutations) of the discovered tasks; the second
traversal also re-discovers the same files.  Without the
unique-destination proviso, racing writers at a shared destination can
make the runs differ, as the counterexample shows. -/
theorem c6_second_run_byte_identical (fs : FS) (src out : FsPath)
    (sched1 sched2 : List FsPath)
    (H : ∀ f ∈ discover fs src, isUnder src (destPath out f) = false)
    (Huniq : ∀ f ∈ discover fs src, ∀ g ∈ discover fs src,
      destPath out f = destPath out g → f = g)
    (h1 : List.Perm sched1 (discover fs src))
    (h2 : List.Perm sched2 (discover fs src)) (p : FsPath) :
    discover (runTasks okOracle out fs sched1).1 src = discover fs src ∧
    fsRead (runTasks okOracle out (runTasks okOracle out fs sched1).1 sched2).1 p =
      fsRead (runTasks okOracle out fs sched1).1 p := by
  have hm1 : ∀ a, a ∈ sched1 → a ∈ discover fs src := fun a ha => (h1.mem_iff).mp ha
  have hm2 : ∀ a, a ∈ sched2 → a ∈ discover fs src := fun a ha => (h2.mem_iff).mp ha
  have hsrc : ∀ g ∈ discover fs src, isUnder src g = true :=
    fun g hg => (List.mem_filter.mp hg).2
  have hne : ∀ a ∈ discover fs src, ∀ g ∈ discover fs src, destPath out g ≠ a := by
    intro a ha g hg heq
    have hg1 := H g hg
    rw [heq] at hg1
    have ha1 := hsrc a ha
    rw [hg1] at ha1
    exact Bool.false_ne_true ha1
  have Hne1 : ∀ a ∈ sched1, ∀ g ∈ sched1, destPath out g ≠ a :=
    fun a ha g hg => hne a (hm1 a ha) g (hm1 g hg)
  have Hne2 : ∀ a ∈ sched2, ∀ g ∈ sched2, destPath out g ≠ a :=
    fun a ha g hg => hne a (hm2 a ha) g (hm2 g hg)
  constructor
  · exact discover_runTasks okOracle out src sched1 fs (fun g hg => H g (hm1 g hg))
  · have hreads : ∀ g ∈ sched2,
        fsRead (runTasks okOracle out fs sched1).1 g = fsRead fs g := by
      intro g hg
      exact runTasks_fsRead_source out sched1 fs Hne1 g
        (fun g' hg' => hne g (hm2 g hg) g' (hm1 g' hg'))
    have hws : writesOf out (runTasks okOracle out fs sched1).1 sched2 =
        writesOf out fs sched2 :=
      writesOf_congr out fs _ sched2 hreads
    rw [runTasks_fsRead out sched2 _ Hne2 p, hws]
    cases hl : lastWrite (writesOf out fs sched2) p with
    | none => rfl
    | some c =>
      have hmem2 : (p, c) ∈ writesOf out fs sched2 := lastWrite_mem p c _ hl
      obtain ⟨g, hg, hdest, hcg⟩ := (mem_writesOf out fs sched2 (p, c)).mp hmem2
      have hgf : g ∈ discover fs src := hm2 g hg
      have hg1 : g ∈ sched1 := (h1.mem_iff).mpr hgf
      have hmem1 : (p, c) ∈ writesOf out fs sched1 :=
        (mem_writesOf out fs sched1 (p, c)).mpr ⟨g, hg1, hdest, hcg⟩
      have huni : ∀ qd ∈ writesOf out fs sched1, qd.1 = p → qd.2 = c := by
        intro qd hqd hkey
        obtain ⟨g', hg', hdest', hcg'⟩ := (mem_writesOf out fs sched1 qd).mp hqd
        have hgg : g' = g := Huniq g' (hm1 g' hg') g hgf (by rw [hdest', hkey]; exact hdest.symm)
        rw [hgg] at hcg'
        rw [hcg] at hcg'
        exact (Option.some.inj hcg').symm
      rw [runTasks_fsRead out sched1 fs Hne1 p, lastWrite_of_uniform _ _ _ hmem1 huni]
      rfl

/-- Claim C6 witness: a one-file source with a disjoint output tree and a
unique destination — the second run re-discovers the same file and reads
the destination identically to the first run. -/
theorem c6_second_run_byte_identical_witness :
    discover (runTasks okOracle ["d"] oneFileFS [["s", "a.txt"]]).1 ["s"] =
      discover oneFileFS ["s"] ∧
    fsRead (runTasks okOracle ["d"]
        (runTasks okOracle ["d"] oneFileFS [["s", "a.txt"]]).1 [["s", "a.txt"]]).1
      ["d", "txt", "a.txt"] =
      fsRead (runTasks okOracle ["d"] oneFileFS [["s", "a.txt"]]).1 ["d", "txt", "a.txt"] :=
  c6_second_run_byte_identical oneFileFS ["s"] ["d"] [["s", "a.txt"]] [["s", "a.txt"]]
    (by decide) (by decide) (by decide) (by decide) ["d", "txt", "a.txt"]
